import Mathlib

/-!
Shallow embedding of `cleaned_inventory_system.py`, an in-memory inventory
ledger: a Python dict `stock_data : Dict[str, int]` with operations
`add_item`, `remove_item`, `get_qty`, `load_data`, `save_data`,
`check_low_items`.

Modelling choices:
* The Python dict is an insertion-ordered association list with unique keys,
  `Stock := List (String × Int)`; `dictGet`/`dictSet`/`dictDel` mirror
  `d.get`, `d[k] = v` and `del d[k]`.
* Dynamically typed arguments are a `PyVal`; `isinstance` checks become
  `isinstStr` / `isinstInt` (Python `bool` is a subclass of `int`, so
  `isinstInt` accepts it).
* Raised exceptions become `Except PyError`; a mutating operation returns
  `Except PyError Unit × Stock`, the second component being the value of the
  global `stock_data` after the call (unchanged when the call raises, exactly
  as in the source, where every `raise` precedes the single mutation site).
* The file system seen by `load_data` is a `FileState`: the path is missing
  (`open` raises `FileNotFoundError`), holds text that is not JSON
  (`json.load` raises `JSONDecodeError`), or holds a parsed JSON value.
  `int(v)` coercion of a JSON value is `pyInt`.
* `save_data` takes a flag saying whether the underlying write succeeds
  (`open(file, "w")`/`json.dump` raising `OSError` or not) and returns the
  JSON value written on success; `json.dump(..., sort_keys=True)` writes the
  keys in sorted order, modelled by sorting the association list by key.
-/

namespace Inventory

/-- A dynamically typed Python value, as far as the ledger inspects one. -/
inductive PyVal where
  | str (s : String)
  | int (n : Int)
  | bool (b : Bool)
  | float (trunc : Int)
  | pyNone
deriving DecidableEq

/-- The exceptions the source raises: `TypeError`, `ValueError`, `KeyError`
(payload: the missing item), `FileNotFoundError`, `json.JSONDecodeError`,
`OSError`. -/
inductive PyError where
  | typeError (msg : String)
  | valueError (msg : String)
  | keyError (item : String)
  | fileNotFoundError
  | jsonDecodeError
  | osError (msg : String)
deriving DecidableEq

/-- `isinstance(v, str)`. -/
def isinstStr : PyVal → Bool
  | PyVal.str _ => true
  | _ => false

/-- `isinstance(v, int)`; Python `bool` is a subclass of `int`. -/
def isinstInt : PyVal → Bool
  | PyVal.int _ => true
  | PyVal.bool _ => true
  | _ => false

/-- The string under a `PyVal` known to be a `str` (junk elsewhere). -/
def pyToStr : PyVal → String
  | PyVal.str s => s
  | _ => ""

/-- The integer under a `PyVal` known to be an `int` (junk elsewhere);
Python treats `True` as `1` and `False` as `0`. -/
def pyToInt : PyVal → Int
  | PyVal.int n => n
  | PyVal.bool b => if b then 1 else 0
  | _ => 0

/-- The global `stock_data` dict: insertion-ordered key/value pairs. -/
abbrev Stock := List (String × Int)

/-- `d.get(k)`: the value at the first (in a real dict, only) entry for `k`. -/
def dictGet {α : Type} : List (String × α) → String → Option α
  | [], _ => Option.none
  | kv :: rest, k => if kv.1 = k then Option.some kv.2 else dictGet rest k

/-- `d.get(k, dflt)`. -/
def dictGetD {α : Type} (l : List (String × α)) (k : String) (dflt : α) : α :=
  (dictGet l k).getD dflt

/-- `d[k] = v`: replace in place if `k` is present, else append. -/
def dictSet {α : Type} : List (String × α) → String → α → List (String × α)
  | [], k, v => [(k, v)]
  | kv :: rest, k, v =>
    if kv.1 = k then (k, v) :: rest else kv :: dictSet rest k v

/-- `del d[k]`: drop the entry for `k`. -/
def dictDel {α : Type} : List (String × α) → String → List (String × α)
  | [], _ => []
  | kv :: rest, k => if kv.1 = k then rest else kv :: dictDel rest k

/-- `add_item(item, qty)`: validate `item : str`, `qty : int`, `qty > 0`,
then `stock_data[item] = stock_data.get(item, 0) + qty`. -/
def add_item (item qty : PyVal) (stock : Stock) : Except PyError Unit × Stock :=
  if isinstStr item = false then
    (Except.error (PyError.typeError "item must be a string"), stock)
  else if isinstInt qty = false then
    (Except.error (PyError.typeError "qty must be an integer"), stock)
  else if pyToInt qty ≤ 0 then
    (Except.error (PyError.valueError "qty must be a positive integer"), stock)
  else
    (Except.ok (),
      dictSet stock (pyToStr item) (dictGetD stock (pyToStr item) 0 + pyToInt qty))

/-- `remove_item(item, qty)`: same validation; `KeyError` when the item is
absent; delete the key when `qty >= current`, else subtract. -/
def remove_item (item qty : PyVal) (stock : Stock) : Except PyError Unit × Stock :=
  if isinstStr item = false then
    (Except.error (PyError.typeError "item must be a string"), stock)
  else if isinstInt qty = false then
    (Except.error (PyError.typeError "qty must be an integer"), stock)
  else if pyToInt qty ≤ 0 then
    (Except.error (PyError.valueError "qty must be a positive integer"), stock)
  else
    match dictGet stock (pyToStr item) with
    | Option.none => (Except.error (PyError.keyError (pyToStr item)), stock)
    | Option.some current =>
      if current ≤ pyToInt qty then
        (Except.ok (), dictDel stock (pyToStr item))
      else
        (Except.ok (), dictSet stock (pyToStr item) (current - pyToInt qty))

/-- `get_qty(item)`: `TypeError` unless `item : str`, else
`stock_data.get(item, 0)`. -/
def get_qty (item : PyVal) (stock : Stock) : Except PyError Int :=
  if isinstStr item = false then
    Except.error (PyError.typeError "item must be a string")
  else
    Except.ok (dictGetD stock (pyToStr item) 0)

/-- `check_low_items(threshold)`: validate, then the names of entries whose
quantity is strictly below the threshold, in dict iteration order. -/
def check_low_items (threshold : PyVal) (stock : Stock) : Except PyError (List String) :=
  if isinstInt threshold = false then
    Except.error (PyError.typeError "threshold must be an integer")
  else if pyToInt threshold < 0 then
    Except.error (PyError.valueError "threshold must be non-negative")
  else
    Except.ok ((stock.filter (fun kv => decide (kv.2 < pyToInt threshold))).map Prod.fst)

/-- A parsed JSON value as `json.load` produces one: object, array, string,
integral number, non-integral number (kept with its `int()` truncation),
boolean, or null. -/
inductive Json where
  | obj (kvs : List (String × Json))
  | arr (xs : List Json)
  | str (s : String)
  | int (n : Int)
  | float (trunc : Int)
  | bool (b : Bool)
  | null

/-- Python `int(s)` on a string: optional surrounding whitespace, optional
sign, then at least one digit. -/
def parseIntStr (s : String) : Option Int :=
  let chars := s.trim.toList
  let signed : Bool × List Char :=
    match chars with
    | '-' :: rest => (true, rest)
    | '+' :: rest => (false, rest)
    | rest => (false, rest)
  if signed.2 = [] ∨ signed.2.any (fun c => ¬ c.isDigit) then
    Option.none
  else
    let mag : Nat := signed.2.foldl (fun acc c => acc * 10 + (c.toNat - 48)) 0
    Option.some (if signed.1 then -(mag : Int) else (mag : Int))

/-- Python `int(v)` on a JSON value: ints pass through, floats truncate,
numeric strings parse (`ValueError` otherwise), bools map to 0/1, and null,
arrays and objects raise `TypeError`. -/
def pyInt : Json → Except PyError Int
  | Json.int n => Except.ok n
  | Json.float t => Except.ok t
  | Json.bool b => Except.ok (if b then 1 else 0)
  | Json.str s =>
    match parseIntStr s with
    | Option.some n => Except.ok n
    | Option.none => Except.error (PyError.valueError "invalid literal for int")
  | Json.null => Except.error (PyError.typeError "int argument must not be None")
  | Json.arr _ => Except.error (PyError.typeError "int argument must not be a list")
  | Json.obj _ => Except.error (PyError.typeError "int argument must not be a dict")

/-- What `load_data` finds at its path. -/
inductive FileState where
  | missing
  | invalidJson
  | json (j : Json)

/-- The dict comprehension `{str(k): int(v) for k, v in data.items()}`:
coerce each value in order, aborting on the first failure. JSON object keys
are already strings, so `str(k)` is the identity. -/
def buildStock : List (String × Json) → Stock → Except PyError Stock
  | [], acc => Except.ok acc
  | (k, v) :: rest, acc =>
    match pyInt v with
    | Except.ok n => buildStock rest (dictSet acc k n)
    | Except.error e => Except.error e

/-- The body of `load_data`'s `try` block: open and parse the file, require a
JSON object, coerce the values. -/
def load_data_core (fs : FileState) : Except PyError Stock :=
  match fs with
  | FileState.missing => Except.error PyError.fileNotFoundError
  | FileState.invalidJson => Except.error PyError.jsonDecodeError
  | FileState.json (Json.obj kvs) => buildStock kvs []
  | FileState.json _ =>
    Except.error (PyError.valueError "inventory file does not contain a JSON object")

/-- `load_data(file)`: on success replace `stock_data` wholesale; the
`except` clauses catch `FileNotFoundError`, `JSONDecodeError`, `ValueError`
and `TypeError` — every error the `try` body can raise — and reset
`stock_data` to empty, so the caller never sees an exception. -/
def load_data (fs : FileState) (stock : Stock) : Stock :=
  match load_data_core fs with
  | Except.ok s => s
  | Except.error _ => []

/-- The key ordering `json.dump(..., sort_keys=True)` sorts by. -/
def keyLE (a b : String × Int) : Prop := a.1 ≤ b.1

instance : DecidableRel keyLE := fun a b => inferInstanceAs (Decidable (a.1 ≤ b.1))

instance : IsTotal (String × Int) keyLE := ⟨fun a b => le_total a.1 b.1⟩

instance : IsTrans (String × Int) keyLE := ⟨fun _ _ _ h₁ h₂ => le_trans h₁ h₂⟩

/-- The entries of the stock dict in sorted key order. -/
def sortByKey (l : Stock) : Stock := List.insertionSort keyLE l

/-- The JSON object `json.dump(stock_data, f, indent=2, sort_keys=True)`
writes. -/
def save_json (stock : Stock) : Json :=
  Json.obj ((sortByKey stock).map (fun kv => (kv.1, Json.int kv.2)))

/-- `save_data(file)`: when the underlying write succeeds, the serialized
object is written; when it raises `OSError`, the handler logs and re-raises,
so the error reaches the caller. -/
def save_data (writeOk : Bool) (stock : Stock) : Except PyError Json :=
  if writeOk then Except.ok (save_json stock)
  else Except.error (PyError.osError "write failed")

/-- Invariant I1, first half: every stored quantity is strictly positive. -/
def allPos (s : Stock) : Prop := ∀ kv ∈ s, 0 < kv.2

/-- The file states on which `load_data`'s `try` body fails: missing file,
unparseable text, a JSON value that is not an object, or an object one of
whose values `int(...)` rejects. -/
def loadFailure : FileState → Prop
  | FileState.missing => True
  | FileState.invalidJson => True
  | FileState.json (Json.obj kvs) => ∃ kv ∈ kvs, ∀ n, pyInt kv.2 ≠ Except.ok n
  | FileState.json _ => True

/-- A file whose JSON-object values, where they coerce at all, coerce to
strictly positive integers. -/
def goodFile (fs : FileState) : Prop :=
  ∀ kvs, fs = FileState.json (Json.obj kvs) →
    ∀ kv ∈ kvs, ∀ n, pyInt kv.2 = Except.ok n → 0 < n

/-- States of `stock_data` reachable from the initial empty dict by any
sequence of `add_item`, `remove_item`, `save_data` and `load_data` calls,
with arbitrary arguments and arbitrary file contents; a call that raises
leaves the state as it was, which the `.2` projection captures, and
`save_data` never writes to `stock_data`. -/
inductive Reach : Stock → Prop where
  | empty : Reach []
  | add (item qty : PyVal) {s : Stock} : Reach s → Reach (add_item item qty s).2
  | remove (item qty : PyVal) {s : Stock} : Reach s → Reach (remove_item item qty s).2
  | save {s : Stock} : Reach s → Reach s
  | load (fs : FileState) {s : Stock} : Reach s → Reach (load_data fs s)

/-- States reachable by `add_item` and `remove_item` alone. -/
inductive Reach2 : Stock → Prop where
  | empty : Reach2 []
  | add (item qty : PyVal) {s : Stock} : Reach2 s → Reach2 (add_item item qty s).2
  | remove (item qty : PyVal) {s : Stock} : Reach2 s → Reach2 (remove_item item qty s).2

/-- States reachable when every loaded file is a `goodFile` (all coercible
values strictly positive). -/
inductive ReachPos : Stock → Prop where
  | empty : ReachPos []
  | add (item qty : PyVal) {s : Stock} : ReachPos s → ReachPos (add_item item qty s).2
  | remove (item qty : PyVal) {s : Stock} : ReachPos s → ReachPos (remove_item item qty s).2
  | save {s : Stock} : ReachPos s → ReachPos s
  | load (fs : FileState) {s : Stock} :
      goodFile fs → ReachPos s → ReachPos (load_data fs s)

/-! ### Dictionary lemmas -/

theorem dictGet_dictSet {α : Type} (l : List (String × α)) (k : String) (v : α)
    (k' : String) :
    dictGet (dictSet l k v) k' = if k = k' then Option.some v else dictGet l k' := by
  induction l with
  | nil => by_cases h : k = k' <;> simp [dictSet, dictGet, h]
  | cons kv rest ih =>
    by_cases hk : kv.1 = k
    · by_cases h : k = k'
      · simp [dictSet, dictGet, hk, h]
      · have hne : ¬ kv.1 = k' := fun he => h (hk.symm.trans he)
        simp [dictSet, dictGet, hk, h, hne]
    · simp only [dictSet, if_neg hk]
      by_cases h' : kv.1 = k'
      · have : ¬ k = k' := fun he => hk (he ▸ h')
        simp [dictGet, h', this]
      · simp [dictGet, h', ih]

theorem mem_dictSet {α : Type} {l : List (String × α)} {k : String} {v : α}
    {kv : String × α} (h : kv ∈ dictSet l k v) : kv ∈ l ∨ kv = (k, v) := by
  induction l with
  | nil => simpa [dictSet] using h
  | cons hd rest ih =>
    by_cases hk : hd.1 = k
    · simp only [dictSet, if_pos hk, List.mem_cons] at h
      rcases h with h | h
      · exact Or.inr h
      · exact Or.inl (List.mem_cons_of_mem _ h)
    · simp only [dictSet, if_neg hk, List.mem_cons] at h
      rcases h with h | h
      · exact Or.inl (h ▸ List.mem_cons_self _ _)
      · rcases ih h with h' | h'
        · exact Or.inl (List.mem_cons_of_mem _ h')
        · exact Or.inr h'

theorem mem_dictDel {α : Type} {l : List (String × α)} {k : String}
    {kv : String × α} (h : kv ∈ dictDel l k) : kv ∈ l := by
  induction l with
  | nil => simpa [dictDel] using h
  | cons hd rest ih =>
    by_cases hk : hd.1 = k
    · simp only [dictDel, if_pos hk] at h
      exact List.mem_cons_of_mem _ h
    · simp only [dictDel, if_neg hk, List.mem_cons] at h
      rcases h with h | h
      · exact h ▸ List.mem_cons_self _ _
      · exact List.mem_cons_of_mem _ (ih h)

theorem dictGet_mem {α : Type} {l : List (String × α)} {k : String} {v : α}
    (h : dictGet l k = Option.some v) : (k, v) ∈ l := by
  induction l with
  | nil => simp [dictGet] at h
  | cons hd rest ih =>
    by_cases hk : hd.1 = k
    · simp only [dictGet, if_pos hk, Option.some.injEq] at h
      have hhd : (k, v) = hd := Prod.ext hk.symm h.symm
      exact List.mem_cons.mpr (Or.inl hhd)
    · simp only [dictGet, if_neg hk] at h
      exact List.mem_cons_of_mem _ (ih h)

theorem dictGet_eq_none {α : Type} {l : List (String × α)} {k : String} :
    dictGet l k = Option.none ↔ k ∉ l.map Prod.fst := by
  induction l with
  | nil => simp [dictGet]
  | cons hd rest ih =>
    by_cases hk : hd.1 = k
    · simp [dictGet, hk]
    · have hkk : ¬ k = hd.1 := fun h => hk h.symm
      simp [dictGet, hk, ih, hkk]

theorem mem_iff_dictGet {α : Type} {l : List (String × α)}
    (hnd : (l.map Prod.fst).Nodup) (k : String) (v : α) :
    (k, v) ∈ l ↔ dictGet l k = Option.some v := by
  induction l with
  | nil => simp [dictGet]
  | cons hd rest ih =>
    simp only [List.map_cons, List.nodup_cons] at hnd
    by_cases hk : hd.1 = k
    · have hknotin : k ∉ rest.map Prod.fst := hk ▸ hnd.1
      constructor
      · intro hmem
        rcases List.mem_cons.mp hmem with h | h
        · simp [dictGet, hk, ← h]
        · exact absurd (List.mem_map_of_mem Prod.fst h) hknotin
      · intro hget
        simp only [dictGet, if_pos hk, Option.some.injEq] at hget
        exact List.mem_cons.mpr (Or.inl (Prod.ext hk.symm hget.symm))
    · rw [dictGet, if_neg hk, ← ih hnd.2]
      constructor
      · intro hmem
        rcases List.mem_cons.mp hmem with h | h
        · exact absurd (congrArg Prod.fst h.symm) hk
        · exact h
      · exact List.mem_cons_of_mem _

theorem dictGet_perm {l₁ l₂ : List (String × Int)} (hp : l₁.Perm l₂)
    (hnd : (l₁.map Prod.fst).Nodup) (k : String) :
    dictGet l₁ k = dictGet l₂ k := by
  have hnd₂ : (l₂.map Prod.fst).Nodup := ((hp.map Prod.fst).nodup_iff).mp hnd
  cases hg : dictGet l₁ k with
  | none =>
    have : k ∉ l₂.map Prod.fst := by
      intro hmem
      exact (dictGet_eq_none.mp hg) ((hp.map Prod.fst).mem_iff.mpr hmem)
    exact (dictGet_eq_none.mpr this).symm
  | some v =>
    have hmem : (k, v) ∈ l₂ := hp.mem_iff.mp (dictGet_mem hg)
    exact ((mem_iff_dictGet hnd₂ k v).mp hmem).symm

theorem dictSet_of_not_mem {α : Type} {l : List (String × α)} {k : String}
    (h : dictGet l k = Option.none) (v : α) : dictSet l k v = l ++ [(k, v)] := by
  induction l with
  | nil => simp [dictSet]
  | cons hd rest ih =>
    simp only [dictGet] at h
    by_cases hk : hd.1 = k
    · simp [hk] at h
    · simp only [if_neg hk] at h
      simp [dictSet, hk, ih h]

/-! ### Positivity preservation -/

theorem dictGetD_nonneg {s : Stock} (h : allPos s) (k : String) :
    0 ≤ dictGetD s k 0 := by
  unfold dictGetD
  cases hg : dictGet s k with
  | none => simp
  | some p => simpa using le_of_lt (h (k, p) (dictGet_mem hg))

theorem allPos_add (item qty : PyVal) {s : Stock} (h : allPos s) :
    allPos (add_item item qty s).2 := by
  cases hs : isinstStr item with
  | false => simpa [add_item, hs] using h
  | true =>
    cases hq : isinstInt qty with
    | false => simpa [add_item, hs, hq] using h
    | true =>
      by_cases h3 : pyToInt qty ≤ 0
      · simpa [add_item, hs, hq, h3] using h
      · intro kv hkv
        simp only [add_item, hs, hq, h3, Bool.true_eq_false, if_false, if_neg] at hkv
        rcases mem_dictSet hkv with hm | he
        · exact h kv hm
        · rw [he]
          have := dictGetD_nonneg h (pyToStr item)
          simp only []
          omega

theorem allPos_remove (item qty : PyVal) {s : Stock} (h : allPos s) :
    allPos (remove_item item qty s).2 := by
  cases hs : isinstStr item with
  | false => simpa [remove_item, hs] using h
  | true =>
    cases hq : isinstInt qty with
    | false => simpa [remove_item, hs, hq] using h
    | true =>
      by_cases h3 : pyToInt qty ≤ 0
      · simpa [remove_item, hs, hq, h3] using h
      · cases hg : dictGet s (pyToStr item) with
        | none => simpa [remove_item, hs, hq, h3, hg] using h
        | some current =>
          by_cases h4 : current ≤ pyToInt qty
          · intro kv hkv
            simp only [remove_item, hs, hq, h3, hg, h4, Bool.true_eq_false, if_false,
              if_neg, if_true, if_pos] at hkv
            exact h kv (mem_dictDel hkv)
          · intro kv hkv
            simp only [remove_item, hs, hq, h3, hg, h4, Bool.true_eq_false, if_false,
              if_neg, if_true, if_pos] at hkv
            rcases mem_dictSet hkv with hm | he
            · exact h kv hm
            · rw [he]
              simp only []
              omega

theorem buildStock_pos {kvs : List (String × Json)} {acc out : Stock}
    (hb : buildStock kvs acc = Except.ok out) (hacc : allPos acc)
    (hv : ∀ kv ∈ kvs, ∀ n, pyInt kv.2 = Except.ok n → 0 < n) :
    allPos out := by
  induction kvs generalizing acc with
  | nil =>
    simp only [buildStock, Except.ok.injEq] at hb
    exact hb ▸ hacc
  | cons hd rest ih =>
    obtain ⟨k, v⟩ := hd
    cases hp : pyInt v with
    | error e => simp [buildStock, hp] at hb
    | ok n =>
      simp only [buildStock, hp] at hb
      have hset : allPos (dictSet acc k n) := by
        intro kv hkv
        rcases mem_dictSet hkv with hm | he
        · exact hacc kv hm
        · rw [he]
          exact hv (k, v) (List.mem_cons_self _ _) n hp
      exact ih hb hset (fun kv hm => hv kv (List.mem_cons_of_mem _ hm))

theorem buildStock_error {kvs : List (String × Json)}
    (h : ∃ kv ∈ kvs, ∀ n, pyInt kv.2 ≠ Except.ok n) (acc : Stock) :
    ∃ e, buildStock kvs acc = Except.error e := by
  induction kvs generalizing acc with
  | nil => simp at h
  | cons hd rest ih =>
    obtain ⟨k, v⟩ := hd
    rcases h with ⟨kv, hmem, hfail⟩
    rcases List.mem_cons.mp hmem with he | hm
    · subst he
      cases hp : pyInt v with
      | ok n => exact absurd hp (hfail n)
      | error e => exact ⟨e, by simp [buildStock, hp]⟩
    · cases hp : pyInt v with
      | error e => exact ⟨e, by simp [buildStock, hp]⟩
      | ok n =>
        rcases ih ⟨kv, hm, hfail⟩ (dictSet acc k n) with ⟨e, hrest⟩
        exact ⟨e, by simp [buildStock, hp, hrest]⟩

theorem buildStock_map_int (l : Stock) (acc : Stock) :
    buildStock (l.map (fun kv => (kv.1, Json.int kv.2))) acc
      = Except.ok (l.foldl (fun a kv => dictSet a kv.1 kv.2) acc) := by
  induction l generalizing acc with
  | nil => rfl
  | cons hd rest ih =>
    obtain ⟨k, v⟩ := hd
    simp [buildStock, pyInt, ih]

theorem foldl_dictSet_append {l : Stock} :
    ∀ {acc : Stock}, (l.map Prod.fst).Nodup →
    (∀ k ∈ l.map Prod.fst, dictGet acc k = Option.none) →
    l.foldl (fun a kv => dictSet a kv.1 kv.2) acc = acc ++ l := by
  induction l with
  | nil => intro acc _ _; simp
  | cons hd rest ih =>
    intro acc hnd hdisj
    obtain ⟨k, v⟩ := hd
    simp only [List.map_cons, List.nodup_cons] at hnd
    have hacc : dictGet acc k = Option.none := hdisj k (by simp)
    have hdisj' : ∀ k' ∈ rest.map Prod.fst,
        dictGet (acc ++ [(k, v)]) k' = Option.none := by
      intro k' hk'
      apply dictGet_eq_none.mpr
      simp only [List.map_append, List.mem_append]
      rintro (hin | hin)
      · exact absurd hin (dictGet_eq_none.mp (hdisj k' (List.mem_cons_of_mem _ hk')))
      · simp only [List.map_cons, List.map_nil, List.mem_singleton] at hin
        exact hnd.1 (hin ▸ hk')
    rw [List.foldl_cons, dictSet_of_not_mem hacc v, ih hnd.2 hdisj']
    simp

/-! ### Reachability -/

theorem allPos_load_good {fs : FileState} (hgood : goodFile fs) (s : Stock) :
    allPos (load_data fs s) := by
  cases fs with
  | missing => simp [load_data, load_data_core, allPos]
  | invalidJson => simp [load_data, load_data_core, allPos]
  | json j =>
    cases j with
    | obj kvs =>
      cases hb : buildStock kvs [] with
      | ok out =>
        simpa [load_data, load_data_core, hb] using
          buildStock_pos hb (by simp [allPos]) (hgood kvs rfl)
      | error e => simp [load_data, load_data_core, hb, allPos]
    | arr xs => simp [load_data, load_data_core, allPos]
    | str t => simp [load_data, load_data_core, allPos]
    | int n => simp [load_data, load_data_core, allPos]
    | float t => simp [load_data, load_data_core, allPos]
    | bool b => simp [load_data, load_data_core, allPos]
    | null => simp [load_data, load_data_core, allPos]

theorem allPos_reach2 {s : Stock} (h : Reach2 s) : allPos s := by
  induction h with
  | empty => intro kv hkv; simp at hkv
  | add item qty _ ih => exact allPos_add item qty ih
  | remove item qty _ ih => exact allPos_remove item qty ih

theorem allPos_reachPos {s : Stock} (h : ReachPos s) : allPos s := by
  induction h with
  | empty => intro kv hkv; simp at hkv
  | add item qty _ ih => exact allPos_add item qty ih
  | remove item qty _ ih => exact allPos_remove item qty ih
  | save _ ih => exact ih
  | load fs hgood _ _ => exact allPos_load_good hgood _

theorem dictGet_map_value {α β : Type} (f : α → β) (l : List (String × α))
    (k : String) :
    dictGet (l.map (fun kv => (kv.1, f kv.2))) k = (dictGet l k).map f := by
  induction l with
  | nil => rfl
  | cons hd rest ih =>
    by_cases hk : hd.1 = k <;> simp [dictGet, hk, ih]

/-! ### The claims -/

/-- C2: for every sequence of `add_item`/`remove_item` calls starting from
the empty ledger, after each call every value in `stock_data` is strictly
positive, and `get_qty` returns 0 for every item absent from the dict. -/
theorem add_remove_invariant (s : Stock) (h : Reach2 s) :
    (∀ kv ∈ s, 0 < kv.2) ∧
    (∀ k, dictGet s k = Option.none → get_qty (PyVal.str k) s = Except.ok 0) := by
  refine ⟨allPos_reach2 h, ?_⟩
  intro k hk
  simp [get_qty, isinstStr, pyToStr, dictGetD, hk]

/-- C2 witness: the state `{a: 2}` reached by one `add_item` from empty. -/
theorem add_remove_invariant_witness :
    (∀ kv ∈ [(("a" : String), (2 : Int))], 0 < kv.2) ∧
    (∀ k, dictGet [(("a" : String), (2 : Int))] k = Option.none →
      get_qty (PyVal.str k) [(("a" : String), (2 : Int))] = Except.ok 0) :=
  add_remove_invariant [("a", 2)]
    (Reach2.add (PyVal.str "a") (PyVal.int 2) Reach2.empty)

/-- C5: `remove_item` on a textual item with positive integer quantity:
`KeyError` and no change when the item is absent; deletes the key when
`qty ≥ current`; stores `current - qty` when `qty < current`. Over-removal
is not an error. -/
theorem remove_item_spec (s : String) (q : Int) (stock : Stock) (hq : 0 < q) :
    (dictGet stock s = Option.none →
      remove_item (PyVal.str s) (PyVal.int q) stock
        = (Except.error (PyError.keyError s), stock)) ∧
    (∀ current, dictGet stock s = Option.some current →
      (current ≤ q →
        remove_item (PyVal.str s) (PyVal.int q) stock
          = (Except.ok (), dictDel stock s)) ∧
      (q < current →
        remove_item (PyVal.str s) (PyVal.int q) stock
          = (Except.ok (), dictSet stock s (current - q)))) := by
  have hq' : ¬ q ≤ 0 := by omega
  refine ⟨?_, ?_⟩
  · intro hg
    simp [remove_item, isinstStr, isinstInt, pyToStr, pyToInt, hq', hg]
  · intro current hg
    refine ⟨?_, ?_⟩
    · intro hle
      simp [remove_item, isinstStr, isinstInt, pyToStr, pyToInt, hq', hg, hle]
    · intro hlt
      have hnle : ¬ current ≤ q := by omega
      simp [remove_item, isinstStr, isinstInt, pyToStr, pyToInt, hq', hg, hnle]

/-- C5 witness: removing 5 of an item holding exactly 5 deletes the key. -/
theorem remove_item_spec_witness :
    remove_item (PyVal.str "x") (PyVal.int 5) [("x", 5)] = (Except.ok (), []) :=
  ((remove_item_spec "x" 5 [("x", 5)] (by norm_num)).2 5 (by decide)).1 (by norm_num)

/-- C6: a successful `add_item` stores the previous quantity (0 when absent)
plus `qty`; two adds of `a` then `b` to an initially absent item leave
`get_qty` at `a + b`. -/
theorem add_accumulates (x : String) (a b : Int) (stock : Stock)
    (ha : 0 < a) (hb : 0 < b) (habs : dictGet stock x = Option.none) :
    (∀ (s : String) (q : Int) (st : Stock), 0 < q →
      add_item (PyVal.str s) (PyVal.int q) st
        = (Except.ok (), dictSet st s (dictGetD st s 0 + q))) ∧
    get_qty (PyVal.str x)
        ((add_item (PyVal.str x) (PyVal.int b)
          ((add_item (PyVal.str x) (PyVal.int a) stock).2)).2)
      = Except.ok (a + b) := by
  have ha' : ¬ a ≤ 0 := by omega
  have hb' : ¬ b ≤ 0 := by omega
  constructor
  · intro s q st hq
    have hq' : ¬ q ≤ 0 := by omega
    simp [add_item, isinstStr, isinstInt, pyToStr, pyToInt, hq']
  · have hg1 : dictGetD stock x 0 = 0 := by simp [dictGetD, habs]
    have h1 : (add_item (PyVal.str x) (PyVal.int a) stock).2
        = dictSet stock x (dictGetD stock x 0 + a) := by
      simp [add_item, isinstStr, isinstInt, pyToStr, pyToInt, ha']
    have hg2 : dictGetD (dictSet stock x (dictGetD stock x 0 + a)) x 0
        = dictGetD stock x 0 + a := by
      simp [dictGetD, dictGet_dictSet]
    have h2 : (add_item (PyVal.str x) (PyVal.int b)
          (dictSet stock x (dictGetD stock x 0 + a))).2
        = dictSet (dictSet stock x (dictGetD stock x 0 + a)) x
            (dictGetD stock x 0 + a + b) := by
      simp [add_item, isinstStr, isinstInt, pyToStr, pyToInt, hb', hg2]
    rw [h1, h2]
    simp [get_qty, isinstStr, pyToStr, dictGetD, dictGet_dictSet, habs]

/-- C6 witness: `add("x", 2)` then `add("x", 3)` from empty gives 5. -/
theorem add_accumulates_witness :
    get_qty (PyVal.str "x")
        ((add_item (PyVal.str "x") (PyVal.int 3)
          ((add_item (PyVal.str "x") (PyVal.int 2) []).2)).2)
      = Except.ok (2 + 3) :=
  (add_accumulates "x" 2 3 [] (by norm_num) (by norm_num) rfl).2

/-- C8: the validation error contract. `TypeError` (the spec's InvalidType)
for a non-string item or a non-integer quantity, `ValueError` (InvalidArgument)
for a non-positive quantity, `KeyError` (NotFound) for removing an absent
item; with the spec's four concrete instances. -/
theorem validation_errors :
    (∀ (item qty : PyVal) (stock : Stock), isinstStr item = false →
      add_item item qty stock
        = (Except.error (PyError.typeError "item must be a string"), stock)) ∧
    (∀ (item qty : PyVal) (stock : Stock), isinstStr item = true →
      isinstInt qty = false →
      add_item item qty stock
        = (Except.error (PyError.typeError "qty must be an integer"), stock)) ∧
    (∀ (s : String) (q : Int) (stock : Stock), q ≤ 0 →
      add_item (PyVal.str s) (PyVal.int q) stock
        = (Except.error (PyError.valueError "qty must be a positive integer"), stock)) ∧
    (∀ (s : String) (q : Int) (stock : Stock), 0 < q →
      dictGet stock s = Option.none →
      remove_item (PyVal.str s) (PyVal.int q) stock
        = (Except.error (PyError.keyError s), stock)) ∧
    add_item (PyVal.int 42) (PyVal.int 1) []
      = (Except.error (PyError.typeError "item must be a string"), []) ∧
    add_item (PyVal.str "x") (PyVal.int 0) []
      = (Except.error (PyError.valueError "qty must be a positive integer"), []) ∧
    add_item (PyVal.str "x") (PyVal.int (-1)) []
      = (Except.error (PyError.valueError "qty must be a positive integer"), []) ∧
    remove_item (PyVal.str "ghost") (PyVal.int 1) []
      = (Except.error (PyError.keyError "ghost"), []) := by
  refine ⟨?_, ?_, ?_, ?_, rfl, rfl, rfl, rfl⟩
  · intro item qty stock hs
    simp [add_item, hs]
  · intro item qty stock hs hq
    simp [add_item, hs, hq]
  · intro s q stock hq
    simp [add_item, isinstStr, isinstInt, pyToInt, hq]
  · intro s q stock hq hg
    have hq' : ¬ q ≤ 0 := by omega
    simp [remove_item, isinstStr, isinstInt, pyToStr, pyToInt, hq', hg]

/-- C8 witness: a non-string item is rejected with the type error. -/
theorem validation_errors_witness :
    add_item (PyVal.int 7) (PyVal.int 1) []
      = (Except.error (PyError.typeError "item must be a string"), []) :=
  validation_errors.1 (PyVal.int 7) (PyVal.int 1) [] rfl

/-- C10: whenever `add_item` or `remove_item` raises, `stock_data` after the
call equals `stock_data` before it — every `raise` precedes the mutation. -/
theorem failed_mutation_preserves_stock (item qty : PyVal) (stock : Stock) :
    (∀ e, (add_item item qty stock).1 = Except.error e →
      (add_item item qty stock).2 = stock) ∧
    (∀ e, (remove_item item qty stock).1 = Except.error e →
      (remove_item item qty stock).2 = stock) := by
  constructor
  · intro e he
    cases hs : isinstStr item with
    | false => simp [add_item, hs]
    | true =>
      cases hq : isinstInt qty with
      | false => simp [add_item, hs, hq]
      | true =>
        by_cases h3 : pyToInt qty ≤ 0
        · simp [add_item, hs, hq, h3]
        · simp [add_item, hs, hq, h3] at he
  · intro e he
    cases hs : isinstStr item with
    | false => simp [remove_item, hs]
    | true =>
      cases hq : isinstInt qty with
      | false => simp [remove_item, hs, hq]
      | true =>
        by_cases h3 : pyToInt qty ≤ 0
        · simp [remove_item, hs, hq, h3]
        · cases hg : dictGet stock (pyToStr item) with
          | none => simp [remove_item, hs, hq, h3, hg]
          | some current =>
            by_cases h4 : current ≤ pyToInt qty
            · simp [remove_item, hs, hq, h3, hg, h4] at he
            · simp [remove_item, hs, hq, h3, hg, h4] at he

/-- C10 witness: a rejected `add_item` (qty 0) leaves the dict unchanged. -/
theorem failed_mutation_preserves_stock_witness :
    (add_item (PyVal.str "x") (PyVal.int 0) [("a", 1)]).2 = [("a", 1)] :=
  (failed_mutation_preserves_stock (PyVal.str "x") (PyVal.int 0) [("a", 1)]).1
    (PyError.valueError "qty must be a positive integer") rfl

/-- C1 counterexample: the state `{a: 0}` is reachable — load a file whose
JSON object maps `a` to `0`; `load_data` coerces with `int(...)` and never
checks positivity — yet it stores a quantity that is not strictly positive,
so the invariant does not hold of every reachable state. -/
theorem ledger_invariant_cex :
    Reach [(("a" : String), (0 : Int))] ∧
    ¬ (∀ kv ∈ [(("a" : String), (0 : Int))], 0 < kv.2) := by
  constructor
  · exact Reach.load (FileState.json (Json.obj [("a", Json.int 0)])) Reach.empty
  · intro hall
    exact absurd (hall ("a", 0) (List.mem_cons_self _ _)) (by norm_num)

/-- C1 (amended): in every state reachable via `add_item`, `remove_item`,
`save_data`, and `load_data` of files whose coercible JSON-object values are
all strictly positive, every stored quantity is strictly positive and an
item is absent exactly when its defaulted quantity is 0. -/
theorem ledger_invariant_pos (s : Stock) (h : ReachPos s) :
    (∀ kv ∈ s, 0 < kv.2) ∧
    (∀ k, dictGet s k = Option.none ↔ dictGetD s k 0 = 0) := by
  have hpos := allPos_reachPos h
  refine ⟨hpos, ?_⟩
  intro k
  constructor
  · intro hk
    simp [dictGetD, hk]
  · intro hk
    cases hg : dictGet s k with
    | none => rfl
    | some v =>
      have hv := hpos (k, v) (dictGet_mem hg)
      simp only [dictGetD, hg, Option.getD_some] at hk
      simp only [] at hv
      omega

/-- C1 witness: the state `{a: 2}` reached by one `add_item` from empty. -/
theorem ledger_invariant_pos_witness :
    (∀ kv ∈ [(("a" : String), (2 : Int))], 0 < kv.2) ∧
    (∀ k, dictGet [(("a" : String), (2 : Int))] k = Option.none ↔
      dictGetD [(("a" : String), (2 : Int))] k 0 = 0) :=
  ledger_invariant_pos [("a", 2)]
    (ReachPos.add (PyVal.str "a") (PyVal.int 2) ReachPos.empty)

/-- C3: on every failing file state — missing file, unparseable text, a JSON
value that is not an object, or an object with a value `int(...)` rejects —
`load_data` returns (it catches every exception its body raises) and leaves
`stock_data` empty, the prior state discarded. -/
theorem load_resilient (prior : Stock) (fs : FileState) (h : loadFailure fs) :
    load_data fs prior = [] := by
  cases fs with
  | missing => rfl
  | invalidJson => rfl
  | json j =>
    cases j with
    | obj kvs =>
      simp only [loadFailure] at h
      rcases buildStock_error h [] with ⟨e, he⟩
      simp [load_data, load_data_core, he]
    | arr xs => rfl
    | str t => rfl
    | int n => rfl
    | float t => rfl
    | bool b => rfl
    | null => rfl

/-- C3 witness: loading a missing file over a non-empty ledger empties it. -/
theorem load_resilient_witness :
    load_data FileState.missing [(("a" : String), (1 : Int))] = [] :=
  load_resilient [("a", 1)] FileState.missing trivial

/-- C7: for every non-negative integer threshold, `check_low_items` succeeds
and returns exactly the names whose stored quantity is strictly below the
threshold; at threshold 0 it returns the empty list whenever all stored
quantities are positive (invariant I1). -/
theorem check_low_items_spec (t : Int) (stock : Stock)
    (ht : 0 ≤ t) (hnd : (stock.map Prod.fst).Nodup) :
    (∃ l, check_low_items (PyVal.int t) stock = Except.ok l ∧
      ∀ name, name ∈ l ↔ ∃ v, dictGet stock name = Option.some v ∧ v < t) ∧
    (allPos stock → check_low_items (PyVal.int 0) stock = Except.ok []) := by
  have ht' : ¬ t < 0 := by omega
  constructor
  · refine ⟨(stock.filter (fun kv => decide (kv.2 < t))).map Prod.fst, ?_, ?_⟩
    · simp [check_low_items, isinstInt, pyToInt, ht']
    · intro name
      simp only [List.mem_map, List.mem_filter, decide_eq_true_eq]
      constructor
      · rintro ⟨kv, ⟨hmem, hlt⟩, hname⟩
        refine ⟨kv.2, ?_, hlt⟩
        have hkv : kv = (name, kv.2) := Prod.ext hname rfl
        exact (mem_iff_dictGet hnd name kv.2).mp (hkv ▸ hmem)
      · rintro ⟨v, hget, hlt⟩
        exact ⟨(name, v), ⟨(mem_iff_dictGet hnd name v).mpr hget, hlt⟩, rfl⟩
  · intro hpos
    have hfil : stock.filter (fun kv => decide (kv.2 < pyToInt (PyVal.int 0))) = [] := by
      rw [List.filter_eq_nil_iff]
      intro kv hkv
      have := hpos kv hkv
      simp only [pyToInt, decide_eq_true_eq]
      omega
    simp only [pyToInt] at hfil
    simp [check_low_items, isinstInt, pyToInt, hfil]

/-- C7 witness: the spec's P7 instance — threshold 0 on `{a:1, b:4, c:10}`
returns the empty list. -/
theorem check_low_items_spec_witness :
    check_low_items (PyVal.int 0)
        [(("a" : String), (1 : Int)), ("b", 4), ("c", 10)] = Except.ok [] :=
  (check_low_items_spec 0 [("a", 1), ("b", 4), ("c", 10)]
    (by norm_num) (by decide)).2
    (by
      intro kv hkv
      simp only [List.mem_cons, List.not_mem_nil, or_false] at hkv
      rcases hkv with h | h | h <;> subst h <;> norm_num)

/-- C4: for a valid stock dict (unique keys, strictly positive values),
`save_data` with a succeeding write followed by `load_data` of the written
file yields a dict equal, as a mapping, to the original, whatever the prior
state was. -/
theorem save_load_round_trip (stock prior : Stock)
    (hnd : (stock.map Prod.fst).Nodup) (hpos : allPos stock) :
    ∃ j, save_data true stock = Except.ok j ∧
      ∀ k, dictGet (load_data (FileState.json j) prior) k = dictGet stock k := by
  refine ⟨save_json stock, rfl, ?_⟩
  intro k
  have hperm : (sortByKey stock).Perm stock := List.perm_insertionSort keyLE stock
  have hndSorted : ((sortByKey stock).map Prod.fst).Nodup :=
    ((hperm.map Prod.fst).nodup_iff).mpr hnd
  have hbuild : load_data_core (FileState.json (save_json stock))
      = Except.ok (sortByKey stock) := by
    show buildStock ((sortByKey stock).map (fun kv => (kv.1, Json.int kv.2))) [] = _
    rw [buildStock_map_int,
      @foldl_dictSet_append (sortByKey stock) [] hndSorted (fun k' _ => rfl)]
    rfl
  have hload : load_data (FileState.json (save_json stock)) prior
      = sortByKey stock := by
    simp [load_data, hbuild]
  rw [hload]
  exact dictGet_perm hperm hndSorted k

/-- C4 witness: `{b: 2, a: 1}` survives a save/load round trip over the
prior state `{z: 9}`. -/
theorem save_load_round_trip_witness :
    ∃ j, save_data true [(("b" : String), (2 : Int)), ("a", 1)] = Except.ok j ∧
      ∀ k, dictGet (load_data (FileState.json j) [("z", 9)]) k
        = dictGet [(("b" : String), (2 : Int)), ("a", 1)] k :=
  save_load_round_trip [("b", 2), ("a", 1)] [("z", 9)] (by decide)
    (by
      intro kv hkv
      simp only [List.mem_cons, List.not_mem_nil, or_false] at hkv
      rcases hkv with h | h <;> subst h <;> norm_num)

/-- C9: when the underlying write fails, `save_data` propagates the
`OSError` to the caller (the handler re-raises); on success it writes
`stock_data` as a JSON object with the keys in sorted order, holding exactly
the stored quantities. -/
theorem save_data_spec (stock : Stock) (hnd : (stock.map Prod.fst).Nodup) :
    save_data false stock = Except.error (PyError.osError "write failed") ∧
    ∃ kvs, save_data true stock = Except.ok (Json.obj kvs) ∧
      List.Sorted (fun a b => a ≤ b) (kvs.map Prod.fst) ∧
      ∀ k, dictGet kvs k = (dictGet stock k).map Json.int := by
  refine ⟨rfl, ?_⟩
  refine ⟨_, rfl, ?_, ?_⟩
  · have hsorted : List.Sorted keyLE (sortByKey stock) :=
      List.sorted_insertionSort keyLE stock
    rw [List.map_map]
    exact List.Pairwise.map _ (fun a b h => h) hsorted
  · intro k
    rw [dictGet_map_value]
    have hperm : (sortByKey stock).Perm stock := List.perm_insertionSort keyLE stock
    have hndSorted : ((sortByKey stock).map Prod.fst).Nodup :=
      ((hperm.map Prod.fst).nodup_iff).mpr hnd
    rw [dictGet_perm hperm hndSorted k]

/-- C9 witness: the contract at the concrete dict `{b: 2, a: 1}`. -/
theorem save_data_spec_witness :
    save_data false [(("b" : String), (2 : Int)), ("a", 1)]
        = Except.error (PyError.osError "write failed") ∧
    ∃ kvs, save_data true [(("b" : String), (2 : Int)), ("a", 1)]
        = Except.ok (Json.obj kvs) ∧
      List.Sorted (fun a b => a ≤ b) (kvs.map Prod.fst) ∧
      ∀ k, dictGet kvs k
        = (dictGet [(("b" : String), (2 : Int)), ("a", 1)] k).map Json.int :=
  save_data_spec [("b", 2), ("a", 1)] (by decide)

end Inventory
